import Mathlib

/-!
Verification of the currency-data download program (src/main.py).

Dates (`DateKey`) are encoded as natural numbers in `YYYYMMDD` form, so
that the natural-number order coincides with calendar order.  A table row
is a pair `(date, payload)`; the payload type is kept abstract where the
merge logic never inspects it.  Rates are modelled as rationals.
-/

namespace CurrencyData

universe u

variable {α : Type u}

/-- One pass of pandas `drop_duplicates(subset=[Date])` with the default
`keep=first`: keep a row only when its date has not been seen before.
`seen` accumulates the dates already kept. -/
def dropDupGo (seen : List Nat) : List (Nat × α) → List (Nat × α)
  | [] => []
  | r :: rs => if r.1 ∈ seen then dropDupGo seen rs else r :: dropDupGo (r.1 :: seen) rs

/-- `updated_data.drop_duplicates(subset=[Date])` from `save_to_csv`
(src/main.py line 68): keep the first row for each date. -/
def dropDupDate (rows : List (Nat × α)) : List (Nat × α) :=
  dropDupGo [] rows

/-- `pd.to_datetime(existing_data[Date]).max()` (src/main.py line 64):
the maximum date of the stored table, `none` on an empty table (pandas
returns `NaT` there). -/
def latestDate : List (Nat × α) → Option Nat
  | [] => none
  | r :: rs => some (rs.foldl (fun m s => max m s.1) r.1)

/-- `data_frame[pd.to_datetime(data_frame[Date]) > latest_date_existing]`
(src/main.py line 66): the incoming rows whose date strictly exceeds the
stored maximum.  A comparison against `NaT` (`none`) is false in pandas,
so no row qualifies then. -/
def newEntries (df : List (Nat × α)) : Option Nat → List (Nat × α)
  | none => []
  | some m => df.filter fun r => decide (m < r.1)

/-- The merge performed by `save_to_csv` on the all-currency file when the
file already exists (src/main.py lines 62-70): read the existing table,
keep the incoming rows newer than the stored maximum, concatenate existing
rows first, and drop duplicate dates keeping the first occurrence. -/
def mergeTable (existing incoming : List (Nat × α)) : List (Nat × α) :=
  dropDupDate (existing ++ newEntries incoming (latestDate existing))

/-! ### Helper lemmas about the merge building blocks -/

theorem le_foldl_max (l : List (Nat × α)) (a : Nat) :
    a ≤ l.foldl (fun m s => max m s.1) a := by
  induction l generalizing a with
  | nil => exact Nat.le_refl a
  | cons r rs ih =>
      exact Nat.le_trans (Nat.le_max_left a r.1) (ih (max a r.1))

theorem mem_le_foldl_max {l : List (Nat × α)} {r : Nat × α} (hr : r ∈ l) (a : Nat) :
    r.1 ≤ l.foldl (fun m s => max m s.1) a := by
  induction l generalizing a with
  | nil => cases hr
  | cons s rs ih =>
      rcases List.mem_cons.mp hr with h | h
      · subst h
        exact Nat.le_trans (Nat.le_max_right a r.1) (le_foldl_max rs (max a r.1))
      · exact ih h (max a s.1)

theorem foldl_max_le {l : List (Nat × α)} {b : Nat}
    (hl : ∀ r ∈ l, r.1 ≤ b) {a : Nat} (ha : a ≤ b) :
    l.foldl (fun m s => max m s.1) a ≤ b := by
  induction l generalizing a with
  | nil => exact ha
  | cons r rs ih =>
      exact ih (fun s hs => hl s (List.mem_cons_of_mem _ hs))
        (Nat.max_le.mpr ⟨ha, hl r (List.mem_cons_self _ _)⟩)

theorem latestDate_le_of_mem {rows : List (Nat × α)} {m : Nat}
    (hm : latestDate rows = some m) {r : Nat × α} (hr : r ∈ rows) : r.1 ≤ m := by
  cases rows with
  | nil => cases hr
  | cons s rs =>
      simp only [latestDate, Option.some.injEq] at hm
      subst hm
      rcases List.mem_cons.mp hr with h | h
      · subst h; exact le_foldl_max rs r.1
      · exact mem_le_foldl_max h s.1

theorem mem_newEntries {df : List (Nat × α)} {m : Nat} {r : Nat × α} :
    r ∈ newEntries df (some m) ↔ r ∈ df ∧ m < r.1 := by
  simp [newEntries, List.mem_filter]

theorem dropDupGo_eq_self {l : List (Nat × α)} {seen : List Nat}
    (hnd : (l.map Prod.fst).Nodup) (hdis : ∀ k ∈ l.map Prod.fst, k ∉ seen) :
    dropDupGo seen l = l := by
  induction l generalizing seen with
  | nil => rfl
  | cons r rs ih =>
      simp only [List.map_cons, List.nodup_cons] at hnd
      have hr : r.1 ∉ seen := hdis r.1 (by simp)
      simp only [dropDupGo, if_neg hr]
      refine congrArg (r :: ·) (ih hnd.2 ?_)
      intro k hk
      simp only [List.mem_cons, not_or]
      exact ⟨fun h => hnd.1 (h ▸ hk), hdis k (List.mem_cons_of_mem _ hk)⟩

theorem dropDupDate_eq_self {l : List (Nat × α)} (hnd : (l.map Prod.fst).Nodup) :
    dropDupDate l = l :=
  dropDupGo_eq_self hnd (by simp)

theorem dropDupGo_append {l₁ : List (Nat × α)} (l₂ : List (Nat × α)) {seen : List Nat}
    (hnd : (l₁.map Prod.fst).Nodup) (hdis : ∀ k ∈ l₁.map Prod.fst, k ∉ seen) :
    ∃ seen₂, dropDupGo seen (l₁ ++ l₂) = l₁ ++ dropDupGo seen₂ l₂ := by
  induction l₁ generalizing seen with
  | nil => exact ⟨seen, rfl⟩
  | cons r rs ih =>
      simp only [List.map_cons, List.nodup_cons] at hnd
      have hr : r.1 ∉ seen := hdis r.1 (by simp)
      obtain ⟨seen₂, h⟩ := @ih (r.1 :: seen) hnd.2 (by
        intro k hk
        simp only [List.mem_cons, not_or]
        exact ⟨fun hh => hnd.1 (hh ▸ hk), hdis k (List.mem_cons_of_mem _ hk)⟩)
      refine ⟨seen₂, ?_⟩
      simp only [List.cons_append, dropDupGo, if_neg hr, List.append_eq] at h ⊢
      rw [h]

theorem newEntries_keys_nodup {df : List (Nat × α)} (h : (df.map Prod.fst).Nodup)
    (m : Option Nat) : ((newEntries df m).map Prod.fst).Nodup := by
  cases m with
  | none => simp [newEntries]
  | some m =>
      exact ((List.filter_sublist df).map Prod.fst).nodup h

theorem append_newEntries_keys_nodup {existing incoming : List (Nat × α)}
    (h₁ : (existing.map Prod.fst).Nodup) (h₂ : (incoming.map Prod.fst).Nodup) :
    (((existing ++ newEntries incoming (latestDate existing)).map Prod.fst)).Nodup := by
  rw [List.map_append]
  refine List.Nodup.append h₁ (newEntries_keys_nodup h₂ _) ?_
  intro k hk₁ hk₂
  cases hld : latestDate existing with
  | none =>
      rw [hld] at hk₂; simp [newEntries] at hk₂
  | some m =>
      rw [hld] at hk₂
      obtain ⟨r, hr, hrk⟩ := List.mem_map.mp hk₁
      obtain ⟨s, hs, hsk⟩ := List.mem_map.mp hk₂
      have h₁ : r.1 ≤ m := latestDate_le_of_mem hld hr
      have h₂ : m < s.1 := (mem_newEntries.mp hs).2
      omega

/-- The structural form of the merge: when both tables satisfy the
one-row-per-date invariant, the dedup pass is the identity and the merge
is literally existing rows followed by the strictly newer incoming rows. -/
theorem mergeTable_eq_append {existing incoming : List (Nat × α)}
    (h₁ : (existing.map Prod.fst).Nodup) (h₂ : (incoming.map Prod.fst).Nodup) :
    mergeTable existing incoming =
      existing ++ newEntries incoming (latestDate existing) :=
  dropDupDate_eq_self (append_newEntries_keys_nodup h₁ h₂)

/-! ### Storage model for `save_to_csv` on the all-currency file -/

/-- Backing medium for the all-currency CSV file.  `content = none` models
`os.path.isfile` returning false.  `readOk` / `writeOk` model whether
`pd.read_csv` / `DataFrame.to_csv` succeed; a failing write is modelled as
failing before any byte reaches the medium (the medium is unavailable). -/
structure Storage (α : Type u) where
  content : Option (List (Nat × α))
  readOk : Bool
  writeOk : Bool

/-- An exception inside the `try` block of `save_to_csv`. -/
inductive SaveError where
  | readFailed
  | writeFailed
deriving DecidableEq, Repr

/-- What `save_to_csv` reports: the update / first-save success messages,
or the error message printed by its `except` clause. -/
inductive SaveOutcome where
  | updated
  | savedNew
  | errorPrinted
deriving DecidableEq, Repr

/-- The `try` block of `save_to_csv` for the all-currency file
(src/main.py lines 62-74): if the file exists, read it, merge, rewrite;
otherwise write the incoming frame verbatim.  An `Except.error` is an
exception escaping the block. -/
def saveAllBody (df : List (Nat × α)) (st : Storage α) :
    Except SaveError (Storage α) :=
  match st.content with
  | some existing =>
      if st.readOk then
        if st.writeOk then
          Except.ok { st with content := some (mergeTable existing df) }
        else Except.error SaveError.writeFailed
      else Except.error SaveError.readFailed
  | none =>
      if st.writeOk then Except.ok { st with content := some df }
      else Except.error SaveError.writeFailed

/-- `save_to_csv(data_frame, ALL_CURRENCY_FILE)` (src/main.py lines
60-76): run the body; any exception is caught by the `except` clause,
which prints an error message and returns normally. -/
def save_to_csv_all (df : List (Nat × α)) (st : Storage α) :
    Storage α × SaveOutcome :=
  match saveAllBody df st with
  | Except.ok st2 =>
      (st2, if st.content.isSome then SaveOutcome.updated else SaveOutcome.savedNew)
  | Except.error _ => (st, SaveOutcome.errorPrinted)

/-! ### Fetch model (`fetch_currency_data`, src/main.py lines 23-45) -/

/-- The HTTP response of the rate source: status code, whether the body
text contains the over-limit marker, and the parsed `rates` array as
(effectiveDate, mid) pairs. -/
structure HttpResponse where
  status : Nat
  hasLimitText : Bool
  rates : List (Nat × ℚ)
deriving DecidableEq, Repr

/-- The exceptions `fetch_currency_data` can raise: the `HTTPError` from
`raise_for_status`, the two hand-written messages for 404 and the 400
over-limit case, and the empty-`rates` message. -/
inductive FetchError where
  | httpError (status : Nat)
  | dataNotFound
  | limitExceeded
  | noRates
deriving DecidableEq, Repr

/-- Python `dict` assignment on an association list: the first binding of
the key is updated in place, a new key is appended at the end. -/
def dictInsert : List (Nat × ℚ) → Nat → ℚ → List (Nat × ℚ)
  | [], k, v => [(k, v)]
  | (k0, v0) :: rest, k, v =>
      if k0 = k then (k0, v) :: rest else (k0, v0) :: dictInsert rest k v

/-- The dict comprehension over the `rates` entries
(src/main.py line 45). -/
def buildRates (entries : List (Nat × ℚ)) : List (Nat × ℚ) :=
  entries.foldl (fun m e => dictInsert m e.1 e.2) []

/-- `fetch_currency_data` (src/main.py lines 23-45) given the source's
response.  `response.raise_for_status()` raises `HTTPError` on every
status in 400-599, so it is checked first; the two `status_code` branches
that follow it are only reached when it did not raise. -/
def fetch_currency_data (resp : HttpResponse) : Except FetchError (List (Nat × ℚ)) :=
  if 400 ≤ resp.status ∧ resp.status < 600 then
    Except.error (FetchError.httpError resp.status)
  else if resp.status = 404 then Except.error FetchError.dataNotFound
  else if resp.status = 400 ∧ resp.hasLimitText then Except.error FetchError.limitExceeded
  else if resp.rates.isEmpty then Except.error FetchError.noRates
  else Except.ok (buildRates resp.rates)

/-! ### Derived ratios and frame assembly (`process_currency_data`) -/

/-- The exceptions a ratio dict comprehension can raise: `KeyError` when
a numerator date is absent from the denominator dict, `ZeroDivisionError`
when the denominator rate is zero. -/
inductive DeriveError where
  | keyError (d : Nat)
  | divisionByZero (d : Nat)
deriving DecidableEq, Repr

/-- Round-half-to-even to an integer, the rounding of Python `round`. -/
def roundHalfEven (q : ℚ) : ℤ :=
  let f := Rat.floor q
  let r := q - f
  if r < 1 / 2 then f
  else if 1 / 2 < r then f + 1
  else if f % 2 = 0 then f else f + 1

/-- Python `round(x, 4)`. -/
def roundTo4 (q : ℚ) : ℚ :=
  (roundHalfEven (q * 10000) : ℚ) / 10000

/-- The ratio dict comprehensions of `process_currency_data`
(src/main.py lines 123-124): iterate over the numerator's dates in order;
for each, look the date up in the denominator dict (raising `KeyError`
when absent) and divide (raising `ZeroDivisionError` on a zero rate). -/
def derive (num den : List (Nat × ℚ)) : Except DeriveError (List (Nat × ℚ)) :=
  match num with
  | [] => Except.ok []
  | r :: rs =>
      match den.lookup r.1 with
      | none => Except.error (DeriveError.keyError r.1)
      | some w =>
          if w = 0 then Except.error (DeriveError.divisionByZero r.1)
          else
            match derive rs den with
            | Except.error e => Except.error e
            | Except.ok l => Except.ok ((r.1, roundTo4 (r.2 / w)) :: l)

/-- An exception inside `process_currency_data`: a ratio comprehension
failed, or `pd.DataFrame` rejected columns of different lengths. -/
inductive ProcessError where
  | deriveErr (e : DeriveError)
  | lengthMismatch
deriving DecidableEq, Repr

/-- The DataFrame assembled by `process_currency_data` (src/main.py lines
126-135), one column per tracked series; the `Date` column is
`list(eur_rates.keys())`. -/
structure Frame where
  dates : List Nat
  eurPln : List ℚ
  usdPln : List ℚ
  chfPln : List ℚ
  eurUsd : List ℚ
  chfUsd : List ℚ
deriving DecidableEq, Repr

/-- `process_currency_data` (src/main.py lines 116-137) applied to the
three fetched rate dicts: compute EUR/USD then CHF/USD ratios, then build
the frame column-wise; `pd.DataFrame` raises when the columns do not all
have the same length.  The ratio columns always match their numerator's
length, so checking the three fetched dicts suffices. -/
def process_currency_data (eur usd chf : List (Nat × ℚ)) :
    Except ProcessError Frame :=
  match derive eur usd with
  | Except.error e => Except.error (ProcessError.deriveErr e)
  | Except.ok eurUsdL =>
      match derive chf usd with
      | Except.error e => Except.error (ProcessError.deriveErr e)
      | Except.ok chfUsdL =>
          if eur.length = usd.length ∧ eur.length = chf.length then
            Except.ok
              { dates := eur.map Prod.fst
                eurPln := eur.map Prod.snd
                usdPln := usd.map Prod.snd
                chfPln := chf.map Prod.snd
                eurUsd := eurUsdL.map Prod.snd
                chfUsd := chfUsdL.map Prod.snd }
          else Except.error ProcessError.lengthMismatch

/-! ### Statistics model (`analyze_currency_pair`, src/main.py lines 79-107)

`describe()` reports, per column, the arithmetic mean, the 50% percentile
(the standard median: middle value, or the average of the two middle
values, of the sorted data), the minimum and the maximum, skipping absent
values; a column is modelled as the list of its present values. -/

/-- Arithmetic mean of a column. -/
def meanQ (l : List ℚ) : ℚ :=
  l.sum / l.length

/-- The 50% percentile of `describe()`: the middle element of the sorted
values for odd length, the average of the two middle elements for even
length. -/
def medianQ (l : List ℚ) : ℚ :=
  let s := List.insertionSort (fun a b : ℚ => a ≤ b) l
  if s.length % 2 = 1 then s.getD (s.length / 2) 0
  else (s.getD (s.length / 2 - 1) 0 + s.getD (s.length / 2) 0) / 2

/-- Minimum of a column (0 on an empty column, never used there). -/
def minQ : List ℚ → ℚ
  | [] => 0
  | x :: xs => xs.foldl min x

/-- Maximum of a column (0 on an empty column, never used there). -/
def maxQ : List ℚ → ℚ
  | [] => 0
  | x :: xs => xs.foldl max x

/-- One transposed row of `describe()`: the four statistics the code reads
(`mean`, `50%`, `min`, `max`). -/
structure ColumnStats where
  mean : ℚ
  median : ℚ
  min : ℚ
  max : ℚ
deriving DecidableEq, Repr

/-- `describe()` applied to one column of values. -/
def describeColumn (l : List ℚ) : ColumnStats :=
  { mean := meanQ l, median := medianQ l, min := minQ l, max := maxQ l }

/-- `selected_data.describe().transpose()` (src/main.py line 95) for the
two-column frame `[Date, pair]`: one statistics row per column, the
`Date` column first (dates are datetimes, treated numerically by
`describe`, modelled by casting to ℚ). -/
def describeRows (dates : List Nat) (vals : List ℚ) : List ColumnStats :=
  [describeColumn (dates.map fun d => (d : ℚ)), describeColumn vals]

/-- The statistics row the code reads with `.iloc[1]` (src/main.py lines
100-103): index 1 of the transposed `describe()` output, i.e. the
requested currency-pair column. -/
def analyzeStats (dates : List Nat) (vals : List ℚ) : ColumnStats :=
  (describeRows dates vals).getD 1 (describeColumn [])

/-! ### Helper lemmas about dict lookup and `derive` -/

theorem lookup_mem_keys {den : List (Nat × ℚ)} {k : Nat} {w : ℚ}
    (h : den.lookup k = some w) : k ∈ den.map Prod.fst := by
  induction den with
  | nil => cases h
  | cons r rs ih =>
      cases r with
      | mk k0 v0 =>
          cases hq : (k == k0) with
          | true =>
              have hk : k = k0 := eq_of_beq hq
              simp [hk]
          | false =>
              simp only [List.lookup, hq] at h
              exact List.mem_cons_of_mem _ (ih h)

theorem lookup_eq_none_of_not_mem {den : List (Nat × ℚ)} {k : Nat}
    (h : k ∉ den.map Prod.fst) : den.lookup k = none := by
  cases hl : den.lookup k with
  | none => rfl
  | some w => exact absurd (lookup_mem_keys hl) h

theorem derive_ok_keys {num den L : List (Nat × ℚ)}
    (h : derive num den = Except.ok L) :
    L.map Prod.fst = num.map Prod.fst ∧ L.length = num.length := by
  induction num generalizing L with
  | nil =>
      simp only [derive, Except.ok.injEq] at h
      subst h; exact ⟨rfl, rfl⟩
  | cons r rs ih =>
      cases hl : den.lookup r.1 with
      | none => simp [derive, hl] at h
      | some w =>
          simp only [derive, hl] at h
          by_cases hw : w = 0
          · rw [if_pos hw] at h; cases h
          · rw [if_neg hw] at h
            cases hd : derive rs den with
            | error e => rw [hd] at h; cases h
            | ok l =>
                rw [hd] at h
                simp only [Except.ok.injEq] at h
                subst h
                obtain ⟨h1, h2⟩ := ih hd
                simp [h1, h2]

theorem derive_ok_lookup {num den L : List (Nat × ℚ)}
    (h : derive num den = Except.ok L) :
    ∀ r ∈ num, ∃ w, den.lookup r.1 = some w ∧ w ≠ 0 := by
  induction num generalizing L with
  | nil => intro r hr; cases hr
  | cons s rs ih =>
      intro r hr
      cases hl : den.lookup s.1 with
      | none => simp [derive, hl] at h
      | some w =>
          simp only [derive, hl] at h
          by_cases hw : w = 0
          · rw [if_pos hw] at h; cases h
          · rw [if_neg hw] at h
            cases hd : derive rs den with
            | error e => rw [hd] at h; cases h
            | ok l =>
                rcases List.mem_cons.mp hr with he | he
                · subst he; exact ⟨w, hl, hw⟩
                · exact ih hd r he

theorem derive_ok_of_lookup {num den : List (Nat × ℚ)}
    (h : ∀ r ∈ num, ∃ w, den.lookup r.1 = some w ∧ w ≠ 0) :
    ∃ L, derive num den = Except.ok L ∧ L.map Prod.fst = num.map Prod.fst ∧
      ∀ r ∈ num, ∀ w, den.lookup r.1 = some w → (r.1, roundTo4 (r.2 / w)) ∈ L := by
  induction num with
  | nil => exact ⟨[], rfl, rfl, by intro r hr; cases hr⟩
  | cons s rs ih =>
      obtain ⟨w, hw, hw0⟩ := h s (List.mem_cons_self _ _)
      obtain ⟨L, hL, hkeys, hmem⟩ := ih (fun r hr => h r (List.mem_cons_of_mem _ hr))
      refine ⟨(s.1, roundTo4 (s.2 / w)) :: L, ?_, ?_, ?_⟩
      · simp only [derive, hw, if_neg hw0, hL]
      · simp [hkeys]
      · intro r hr w' hw'
        rcases List.mem_cons.mp hr with he | he
        · subst he
          rw [hw] at hw'
          injection hw' with hww
          subst hww
          exact List.mem_cons_self _ _
        · exact List.mem_cons_of_mem _ (hmem r he w' hw')

theorem derive_zerodiv {num den : List (Nat × ℚ)} {d : Nat}
    (h : derive num den = Except.error (DeriveError.divisionByZero d)) :
    d ∈ num.map Prod.fst ∧ den.lookup d = some 0 := by
  induction num with
  | nil => simp [derive] at h
  | cons s rs ih =>
      cases hl : den.lookup s.1 with
      | none => simp [derive, hl] at h
      | some w =>
          simp only [derive, hl] at h
          by_cases hw : w = 0
          · rw [if_pos hw] at h
            simp only [Except.error.injEq, DeriveError.divisionByZero.injEq] at h
            subst h
            exact ⟨by simp, hw ▸ hl⟩
          · rw [if_neg hw] at h
            cases hd : derive rs den with
            | error e =>
                rw [hd] at h
                simp only [Except.error.injEq] at h
                subst h
                obtain ⟨h1, h2⟩ := ih hd
                exact ⟨List.mem_cons_of_mem _ h1, h2⟩
            | ok l => rw [hd] at h; cases h

/-! ### Helper lemmas about the column statistics -/

theorem foldl_min_le_init (xs : List ℚ) (x : ℚ) : xs.foldl min x ≤ x := by
  induction xs generalizing x with
  | nil => exact le_refl x
  | cons y ys ih =>
      simp only [List.foldl_cons]
      exact le_trans (ih (min x y)) (min_le_left x y)

theorem foldl_min_mem (xs : List ℚ) (x : ℚ) :
    xs.foldl min x = x ∨ xs.foldl min x ∈ xs := by
  induction xs generalizing x with
  | nil => exact Or.inl rfl
  | cons y ys ih =>
      simp only [List.foldl_cons]
      rcases ih (min x y) with h | h
      · rcases min_choice x y with hc | hc
        · exact Or.inl (h.trans hc)
        · exact Or.inr (by rw [h, hc]; exact List.mem_cons_self _ _)
      · exact Or.inr (List.mem_cons_of_mem _ h)

theorem foldl_min_le_mem {xs : List ℚ} {v : ℚ} (hv : v ∈ xs) (x : ℚ) :
    xs.foldl min x ≤ v := by
  induction xs generalizing x with
  | nil => cases hv
  | cons y ys ih =>
      simp only [List.foldl_cons]
      rcases List.mem_cons.mp hv with h | h
      · subst h
        exact le_trans (foldl_min_le_init ys (min x v)) (min_le_right x v)
      · exact ih h (min x y)

theorem init_le_foldl_max (xs : List ℚ) (x : ℚ) : x ≤ xs.foldl max x := by
  induction xs generalizing x with
  | nil => exact le_refl x
  | cons y ys ih =>
      simp only [List.foldl_cons]
      exact le_trans (le_max_left x y) (ih (max x y))

theorem foldl_max_mem (xs : List ℚ) (x : ℚ) :
    xs.foldl max x = x ∨ xs.foldl max x ∈ xs := by
  induction xs generalizing x with
  | nil => exact Or.inl rfl
  | cons y ys ih =>
      simp only [List.foldl_cons]
      rcases ih (max x y) with h | h
      · rcases max_choice x y with hc | hc
        · exact Or.inl (h.trans hc)
        · exact Or.inr (by rw [h, hc]; exact List.mem_cons_self _ _)
      · exact Or.inr (List.mem_cons_of_mem _ h)

theorem mem_le_foldl_max_q {xs : List ℚ} {v : ℚ} (hv : v ∈ xs) (x : ℚ) :
    v ≤ xs.foldl max x := by
  induction xs generalizing x with
  | nil => cases hv
  | cons y ys ih =>
      simp only [List.foldl_cons]
      rcases List.mem_cons.mp hv with h | h
      · subst h
        exact le_trans (le_max_right x v) (init_le_foldl_max ys (max x v))
      · exact ih h (max x y)

theorem minQ_mem {l : List ℚ} (h : l ≠ []) : minQ l ∈ l := by
  cases l with
  | nil => exact absurd rfl h
  | cons x xs =>
      simp only [minQ]
      rcases foldl_min_mem xs x with h1 | h1
      · rw [h1]; exact List.mem_cons_self _ _
      · exact List.mem_cons_of_mem _ h1

theorem minQ_le {l : List ℚ} {v : ℚ} (hv : v ∈ l) : minQ l ≤ v := by
  cases l with
  | nil => cases hv
  | cons x xs =>
      simp only [minQ]
      rcases List.mem_cons.mp hv with h | h
      · subst h; exact foldl_min_le_init xs v
      · exact foldl_min_le_mem h x

theorem maxQ_mem {l : List ℚ} (h : l ≠ []) : maxQ l ∈ l := by
  cases l with
  | nil => exact absurd rfl h
  | cons x xs =>
      simp only [maxQ]
      rcases foldl_max_mem xs x with h1 | h1
      · rw [h1]; exact List.mem_cons_self _ _
      · exact List.mem_cons_of_mem _ h1

theorem le_maxQ {l : List ℚ} {v : ℚ} (hv : v ∈ l) : v ≤ maxQ l := by
  cases l with
  | nil => cases hv
  | cons x xs =>
      simp only [maxQ]
      rcases List.mem_cons.mp hv with h | h
      · subst h; exact init_le_foldl_max xs v
      · exact mem_le_foldl_max_q h x

/-! ### Helper lemmas about `process_currency_data` -/

theorem process_ok_elim {eur usd chf : List (Nat × ℚ)} {F : Frame}
    (h : process_currency_data eur usd chf = Except.ok F) :
    (∃ L, derive eur usd = Except.ok L) ∧ (∃ L, derive chf usd = Except.ok L) ∧
      eur.length = usd.length ∧ eur.length = chf.length ∧
      F.dates = eur.map Prod.fst := by
  cases h1 : derive eur usd with
  | error e => simp [process_currency_data, h1] at h
  | ok L1 =>
      cases h2 : derive chf usd with
      | error e => simp [process_currency_data, h1, h2] at h
      | ok L2 =>
          simp only [process_currency_data, h1, h2] at h
          by_cases hlen : eur.length = usd.length ∧ eur.length = chf.length
          · rw [if_pos hlen] at h
            simp only [Except.ok.injEq] at h
            subst h
            exact ⟨⟨L1, rfl⟩, ⟨L2, rfl⟩, hlen.1, hlen.2, rfl⟩
          · rw [if_neg hlen] at h; cases h

/-! ## Claim theorems -/

/-- C1: for an existing persisted history whose maximum DateKey is `M` and
a one-row-per-date incoming table, the merge performed by `save_to_csv`
selects from the incoming table exactly the rows whose DateKey strictly
exceeds `M` and appends them after the existing rows, which stay
unchanged; every incoming row with DateKey at most `M` is dropped. -/
theorem merge_appends_strictly_newer {existing incoming : List (Nat × α)} {M : Nat}
    (hM : latestDate existing = some M)
    (h₁ : (existing.map Prod.fst).Nodup) (h₂ : (incoming.map Prod.fst).Nodup) :
    mergeTable existing incoming =
      existing ++ incoming.filter (fun r => decide (M < r.1)) := by
  rw [mergeTable_eq_append h₁ h₂, hM]
  rfl

theorem merge_appends_strictly_newer_witness :
    latestDate [((20240310 : Nat), (43 : ℚ))] = some 20240310 ∧
    (([((20240310 : Nat), (43 : ℚ))].map Prod.fst).Nodup ∧
      ([((20240309 : Nat), (7 : ℚ)), (20240311, 9)].map Prod.fst).Nodup) ∧
    mergeTable [((20240310 : Nat), (43 : ℚ))] [(20240309, 7), (20240311, 9)] =
      [(20240310, 43), (20240311, 9)] := by
  refine ⟨rfl, ⟨by decide, by decide⟩, ?_⟩
  rw [merge_appends_strictly_newer
    (show latestDate [((20240310 : Nat), (43 : ℚ))] = some 20240310 from rfl)
    (by decide) (by decide)]
  rfl

/-- C2: the merge is idempotent: merging the same incoming table a second
time into the result of a first merge appends nothing and returns the
first result unchanged. -/
theorem merge_idempotent {H T : List (Nat × α)}
    (h₁ : (H.map Prod.fst).Nodup) (h₂ : (T.map Prod.fst).Nodup) :
    mergeTable (mergeTable H T) T = mergeTable H T := by
  cases H with
  | nil =>
      have h0 : mergeTable ([] : List (Nat × α)) T = [] := rfl
      rw [h0, h0]
  | cons a H' =>
      have hM : latestDate (a :: H') = some (H'.foldl (fun m s => max m s.1) a.1) := rfl
      have hF : mergeTable (a :: H') T =
          (a :: H') ++ newEntries T (some (H'.foldl (fun m s => max m s.1) a.1)) := by
        rw [mergeTable_eq_append h₁ h₂, hM]
      have hRcons : mergeTable (a :: H') T =
          a :: (H' ++ newEntries T (some (H'.foldl (fun m s => max m s.1) a.1))) := by
        rw [hF]; rfl
      have hMR : latestDate (mergeTable (a :: H') T) =
          some ((H' ++ newEntries T (some (H'.foldl (fun m s => max m s.1) a.1))).foldl
            (fun m s => max m s.1) a.1) := by
        rw [hRcons]; rfl
      have hRle : ∀ r ∈ mergeTable (a :: H') T,
          r.1 ≤ (H' ++ newEntries T (some (H'.foldl (fun m s => max m s.1) a.1))).foldl
            (fun m s => max m s.1) a.1 :=
        fun r hr => latestDate_le_of_mem hMR hr
      have hMM : H'.foldl (fun m s => max m s.1) a.1 ≤
          (H' ++ newEntries T (some (H'.foldl (fun m s => max m s.1) a.1))).foldl
            (fun m s => max m s.1) a.1 := by
        refine foldl_max_le (fun r hr => hRle r ?_) (hRle a ?_)
        · rw [hRcons]; exact List.mem_cons_of_mem _ (List.mem_append_left _ hr)
        · rw [hRcons]; exact List.mem_cons_self _ _
      have hT : newEntries T (latestDate (mergeTable (a :: H') T)) = [] := by
        rw [hMR]
        simp only [newEntries]
        rw [List.filter_eq_nil_iff]
        intro r hr
        simp only [decide_eq_true_eq, not_lt]
        by_cases hcase : H'.foldl (fun m s => max m s.1) a.1 < r.1
        · exact hRle r (by rw [hF]; exact List.mem_append_right _ (mem_newEntries.mpr ⟨hr, hcase⟩))
        · exact le_trans (Nat.le_of_not_lt hcase) hMM
      have hRnodup : ((mergeTable (a :: H') T).map Prod.fst).Nodup := by
        rw [hF]
        exact append_newEntries_keys_nodup h₁ h₂
      calc mergeTable (mergeTable (a :: H') T) T
          = dropDupDate (mergeTable (a :: H') T ++
              newEntries T (latestDate (mergeTable (a :: H') T))) := rfl
        _ = dropDupDate (mergeTable (a :: H') T ++ []) := by rw [hT]
        _ = dropDupDate (mergeTable (a :: H') T) := by rw [List.append_nil]
        _ = mergeTable (a :: H') T := dropDupDate_eq_self hRnodup

theorem merge_idempotent_witness :
    (([((20240310 : Nat), (43 : ℚ))].map Prod.fst).Nodup ∧
      ([((20240309 : Nat), (7 : ℚ)), (20240311, 9)].map Prod.fst).Nodup) ∧
    mergeTable (mergeTable [((20240310 : Nat), (43 : ℚ))] [(20240309, 7), (20240311, 9)])
        [(20240309, 7), (20240311, 9)] =
      mergeTable [((20240310 : Nat), (43 : ℚ))] [(20240309, 7), (20240311, 9)] :=
  ⟨⟨by decide, by decide⟩, merge_idempotent (by decide) (by decide)⟩

/-- C3: the merge never loses or rewrites an existing row: the result is
the existing history followed by some (possibly empty) tail, so every
previously stored row keeps its position and values even when the incoming
table carries a different value for an already-stored DateKey, and the row
count never decreases. -/
theorem merge_preserves_existing {existing incoming : List (Nat × α)}
    (h₁ : (existing.map Prod.fst).Nodup) :
    (∃ tail, mergeTable existing incoming = existing ++ tail) ∧
      existing.length ≤ (mergeTable existing incoming).length := by
  obtain ⟨seen₂, h⟩ :=
    dropDupGo_append (newEntries incoming (latestDate existing)) h₁
      (fun k _ hk => (List.not_mem_nil k) hk)
  have hm : mergeTable existing incoming =
      existing ++ dropDupGo seen₂ (newEntries incoming (latestDate existing)) := h
  exact ⟨⟨_, hm⟩, by rw [hm]; simp⟩

theorem merge_preserves_existing_witness :
    (([((20240309 : Nat), (5 : ℚ)), (20240310, 6)].map Prod.fst).Nodup) ∧
    ((∃ tail, mergeTable [((20240309 : Nat), (5 : ℚ)), (20240310, 6)] [(20240309, 7)] =
        [((20240309 : Nat), (5 : ℚ)), (20240310, 6)] ++ tail) ∧
      ([((20240309 : Nat), (5 : ℚ)), (20240310, 6)]).length ≤
        (mergeTable [((20240309 : Nat), (5 : ℚ)), (20240310, 6)] [(20240309, 7)]).length) :=
  ⟨by decide, merge_preserves_existing (by decide)⟩

/-- C4: when the existing history and the incoming table both satisfy the
sorted-ascending one-row-per-date invariant, the merge result is strictly
ascending in DateKey, hence sorted with no duplicate DateKeys. -/
theorem merge_sorted_nodup {existing incoming : List (Nat × α)}
    (h₁ : List.Pairwise (fun r s => r.1 < s.1) existing)
    (h₂ : List.Pairwise (fun r s => r.1 < s.1) incoming) :
    List.Pairwise (fun r s : Nat × α => r.1 < s.1) (mergeTable existing incoming) := by
  have hn₁ : (existing.map Prod.fst).Nodup :=
    List.pairwise_map.mpr (h₁.imp fun h => Nat.ne_of_lt h)
  have hn₂ : (incoming.map Prod.fst).Nodup :=
    List.pairwise_map.mpr (h₂.imp fun h => Nat.ne_of_lt h)
  rw [mergeTable_eq_append hn₁ hn₂]
  refine List.pairwise_append.mpr ⟨h₁, ?_, ?_⟩
  · cases latestDate existing with
    | none => exact List.Pairwise.nil
    | some m => exact List.Pairwise.sublist (List.filter_sublist _) h₂
  · intro r hr s hs
    cases hld : latestDate existing with
    | none => rw [hld] at hs; cases hs
    | some m =>
        rw [hld] at hs
        exact Nat.lt_of_le_of_lt (latestDate_le_of_mem hld hr) (mem_newEntries.mp hs).2

theorem merge_sorted_nodup_witness :
    (List.Pairwise (fun r s => r.1 < s.1) [((20240309 : Nat), (5 : ℚ)), (20240310, 6)] ∧
      List.Pairwise (fun r s => r.1 < s.1) [((20240308 : Nat), (7 : ℚ)), (20240311, 9)]) ∧
    List.Pairwise (fun r s : Nat × ℚ => r.1 < s.1)
      (mergeTable [((20240309 : Nat), (5 : ℚ)), (20240310, 6)]
        [((20240308 : Nat), (7 : ℚ)), (20240311, 9)]) :=
  ⟨⟨by decide, by decide⟩, merge_sorted_nodup (by decide) (by decide)⟩

/-- C5 counterexample: on N = {d1: 1.10, d2: 1.12} and D = {d1: 1.00,
d3: 1.05} (the claim's own example, with d1 = 1, d2 = 2, d3 = 3) the code
does not return the intersection {d1: 1.10}: iterating over the
numerator's dates it looks d2 up in the denominator dict and raises
`KeyError`. -/
theorem derive_strict_intersection_cx :
    derive [((1 : Nat), (11 / 10 : ℚ)), (2, 28 / 25)]
        [((1 : Nat), (1 : ℚ)), (3, 21 / 20)] =
      Except.error (DeriveError.keyError 2) := by
  rfl

/-- C5 amended: the ratio comprehension iterates over the numerator's
dates, looking each one up in the denominator dict.  When every numerator
date is present in the denominator with a nonzero rate, it succeeds and
the result's key set is exactly the numerator's key set, in order, with
value `round(numerator[d] / denominator[d], 4)` at each date; a date
present only in the denominator never appears. -/
theorem derive_numerator_keys {num den : List (Nat × ℚ)}
    (h : ∀ r ∈ num, ∃ w, den.lookup r.1 = some w ∧ w ≠ 0) :
    ∃ L, derive num den = Except.ok L ∧ L.map Prod.fst = num.map Prod.fst ∧
      (∀ r ∈ num, ∀ w, den.lookup r.1 = some w → (r.1, roundTo4 (r.2 / w)) ∈ L) ∧
      ∀ d, d ∉ num.map Prod.fst → d ∉ L.map Prod.fst := by
  obtain ⟨L, h1, h2, h3⟩ := derive_ok_of_lookup h
  exact ⟨L, h1, h2, h3, fun d hd => by rw [h2]; exact hd⟩

theorem derive_numerator_keys_witness :
    (∀ r ∈ [((1 : Nat), (11 / 10 : ℚ)), (2, 28 / 25)],
      ∃ w, ([((1 : Nat), (1 : ℚ)), (2, 2)]).lookup r.1 = some w ∧ w ≠ 0) ∧
    ∃ L, derive [((1 : Nat), (11 / 10 : ℚ)), (2, 28 / 25)]
          [((1 : Nat), (1 : ℚ)), (2, 2)] = Except.ok L ∧
      L.map Prod.fst = [((1 : Nat), (11 / 10 : ℚ)), (2, 28 / 25)].map Prod.fst ∧
      (∀ r ∈ [((1 : Nat), (11 / 10 : ℚ)), (2, 28 / 25)], ∀ w,
        ([((1 : Nat), (1 : ℚ)), (2, 2)]).lookup r.1 = some w →
          (r.1, roundTo4 (r.2 / w)) ∈ L) ∧
      ∀ d, d ∉ [((1 : Nat), (11 / 10 : ℚ)), (2, 28 / 25)].map Prod.fst →
        d ∉ L.map Prod.fst := by
  have hyp : ∀ r ∈ [((1 : Nat), (11 / 10 : ℚ)), (2, 28 / 25)],
      ∃ w, ([((1 : Nat), (1 : ℚ)), (2, 2)]).lookup r.1 = some w ∧ w ≠ 0 := by
    intro r hr
    rcases List.mem_cons.mp hr with h | h
    · subst h; exact ⟨1, rfl, one_ne_zero⟩
    · rcases List.mem_cons.mp h with h | h
      · subst h; exact ⟨2, rfl, two_ne_zero⟩
      · cases h
  exact ⟨hyp, derive_numerator_keys hyp⟩

/-- C6 counterexample: with N = {1: 1} and an empty denominator there is
no shared date at all, so no shared-date denominator is zero, yet the
code fails (`KeyError` on date 1) instead of succeeding. -/
theorem derive_shared_zero_cx :
    derive [((1 : Nat), (1 : ℚ))] ([] : List (Nat × ℚ)) =
      Except.error (DeriveError.keyError 1) := by
  rfl

/-- C6 amended: the ratio comprehension succeeds if and only if every
numerator date is present in the denominator dict with a nonzero rate; a
`ZeroDivisionError` is only ever reported for a date shared by both
inputs whose denominator rate is exactly zero; and a zero denominator at
a numerator date always makes the comprehension fail (though possibly
with a `KeyError` for an earlier date). -/
theorem derive_failure_characterization (num den : List (Nat × ℚ)) :
    ((∃ L, derive num den = Except.ok L) ↔
      ∀ r ∈ num, ∃ w, den.lookup r.1 = some w ∧ w ≠ 0) ∧
    (∀ d, derive num den = Except.error (DeriveError.divisionByZero d) →
      d ∈ num.map Prod.fst ∧ den.lookup d = some 0) ∧
    (∀ d, d ∈ num.map Prod.fst → den.lookup d = some 0 →
      ∃ e, derive num den = Except.error e) := by
  refine ⟨⟨?_, ?_⟩, ?_, ?_⟩
  · rintro ⟨L, hL⟩; exact derive_ok_lookup hL
  · intro h
    obtain ⟨L, hL, _, _⟩ := derive_ok_of_lookup h
    exact ⟨L, hL⟩
  · intro d h; exact derive_zerodiv h
  · intro d hd h0
    cases hres : derive num den with
    | error e => exact ⟨e, rfl⟩
    | ok L =>
        obtain ⟨r, hr, hrd⟩ := List.mem_map.mp hd
        obtain ⟨w, hw, hw0⟩ := derive_ok_lookup hres r hr
        rw [hrd, h0] at hw
        exact (hw0 (Option.some.inj hw).symm).elim

theorem derive_failure_characterization_witness :
    ∃ L, derive [((1 : Nat), (2 : ℚ))] [((1 : Nat), (4 : ℚ))] = Except.ok L := by
  refine (derive_failure_characterization
    [((1 : Nat), (2 : ℚ))] [((1 : Nat), (4 : ℚ))]).1.mpr ?_
  intro r hr
  rcases List.mem_cons.mp hr with h | h
  · subst h; exact ⟨4, rfl, by norm_num⟩
  · cases h

/-- C7: because `response.raise_for_status()` runs before the hand-written
status checks, a 404 (source has no data for the range) and a 400 with
the over-limit message both surface as the generic `HTTPError` — the
`NotFound` / `RangeTooLarge` branches of the code are unreachable.  Only
the empty-`rates` case on a success response yields the no-data error,
and a success with rates returns the parsed mapping. -/
theorem fetch_dead_branches :
    fetch_currency_data ⟨404, false, []⟩ = Except.error (FetchError.httpError 404) ∧
    fetch_currency_data ⟨404, false, [((20240310 : Nat), (4 : ℚ))]⟩ =
      Except.error (FetchError.httpError 404) ∧
    fetch_currency_data ⟨400, true, []⟩ = Except.error (FetchError.httpError 400) ∧
    fetch_currency_data ⟨200, false, []⟩ = Except.error FetchError.noRates ∧
    fetch_currency_data ⟨200, false, [((20240310 : Nat), (4 : ℚ))]⟩ =
      Except.ok [(20240310, 4)] := by
  exact ⟨rfl, rfl, rfl, rfl, rfl⟩

/-- C8 counterexample: with an existing stored history and a backing
medium that cannot be read, the merge call fails inside the `try` block,
but `save_to_csv` catches the exception and returns normally after
printing — the failure is not raised to the caller. -/
theorem save_error_swallowed_cx :
    saveAllBody [((20240311 : Nat), (2 : ℚ))]
        ⟨some [((20240310 : Nat), (1 : ℚ))], false, true⟩ =
      Except.error SaveError.readFailed ∧
    save_to_csv_all [((20240311 : Nat), (2 : ℚ))]
        ⟨some [((20240310 : Nat), (1 : ℚ))], false, true⟩ =
      (⟨some [((20240310 : Nat), (1 : ℚ))], false, true⟩, SaveOutcome.errorPrinted) := by
  exact ⟨rfl, rfl⟩

/-- C8 amended: when the merge call fails for any reason (the backing
medium cannot be read, or cannot be written — modelled as the write not
starting), the previously persisted state is left exactly as it was, but
the failure is caught inside `save_to_csv` and only printed: the call
returns normally and no exception reaches the caller. -/
theorem save_failure_swallowed_state_unchanged {df : List (Nat × α)}
    {st : Storage α} {e : SaveError} (h : saveAllBody df st = Except.error e) :
    save_to_csv_all df st = (st, SaveOutcome.errorPrinted) := by
  unfold save_to_csv_all
  rw [h]

theorem save_failure_swallowed_witness :
    saveAllBody [((20240311 : Nat), (2 : ℚ))]
        ⟨some [((20240310 : Nat), (1 : ℚ))], true, false⟩ =
      Except.error SaveError.writeFailed ∧
    save_to_csv_all [((20240311 : Nat), (2 : ℚ))]
        ⟨some [((20240310 : Nat), (1 : ℚ))], true, false⟩ =
      (⟨some [((20240310 : Nat), (1 : ℚ))], true, false⟩, SaveOutcome.errorPrinted) :=
  ⟨rfl, save_failure_swallowed_state_unchanged rfl⟩

/-- C9: for a present column with at least one value, the statistics row
read off `describe().transpose().iloc[1]` carries the standard mean
(sum over count), minimum and maximum (attained elements bounding every
value), and median (middle of a sorted rearrangement, averaging the two
middles on even length); on the column [1.10, 1.12, 1.08, 1.15] it is
mean 1.1125, median 1.11, min 1.08, max 1.15. -/
theorem analyze_standard_stats :
    (∀ (dates : List Nat) (vals : List ℚ), vals ≠ [] →
      (analyzeStats dates vals).mean = vals.sum / vals.length ∧
      ((analyzeStats dates vals).min ∈ vals ∧
        ∀ v ∈ vals, (analyzeStats dates vals).min ≤ v) ∧
      ((analyzeStats dates vals).max ∈ vals ∧
        ∀ v ∈ vals, v ≤ (analyzeStats dates vals).max) ∧
      (∃ s, vals.Perm s ∧ List.Sorted (fun a b : ℚ => a ≤ b) s ∧
        (analyzeStats dates vals).median =
          if s.length % 2 = 1 then s.getD (s.length / 2) 0
          else (s.getD (s.length / 2 - 1) 0 + s.getD (s.length / 2) 0) / 2)) ∧
    analyzeStats [20240301, 20240302, 20240303, 20240304]
        [11 / 10, 28 / 25, 27 / 25, 23 / 20] =
      { mean := 89 / 80, median := 111 / 100, min := 27 / 25, max := 23 / 20 } := by
  constructor
  · intro dates vals hne
    refine ⟨rfl, ⟨minQ_mem hne, fun v hv => minQ_le hv⟩,
      ⟨maxQ_mem hne, fun v hv => le_maxQ hv⟩, ?_⟩
    exact ⟨List.insertionSort (fun a b : ℚ => a ≤ b) vals,
      (List.perm_insertionSort _ _).symm, List.sorted_insertionSort _ _, rfl⟩
  · norm_num [analyzeStats, describeRows, describeColumn, meanQ, medianQ, minQ,
      maxQ, List.insertionSort, List.orderedInsert, ColumnStats.mk.injEq]

theorem analyze_standard_stats_witness :
    ([11 / 10, 28 / 25, 27 / 25, 23 / 20] : List ℚ) ≠ [] ∧
    ((analyzeStats [20240301, 20240302, 20240303, 20240304]
        [11 / 10, 28 / 25, 27 / 25, 23 / 20]).mean =
        ([11 / 10, 28 / 25, 27 / 25, 23 / 20] : List ℚ).sum /
          ([11 / 10, 28 / 25, 27 / 25, 23 / 20] : List ℚ).length ∧
      ((analyzeStats [20240301, 20240302, 20240303, 20240304]
          [11 / 10, 28 / 25, 27 / 25, 23 / 20]).min ∈
          ([11 / 10, 28 / 25, 27 / 25, 23 / 20] : List ℚ) ∧
        ∀ v ∈ ([11 / 10, 28 / 25, 27 / 25, 23 / 20] : List ℚ),
          (analyzeStats [20240301, 20240302, 20240303, 20240304]
            [11 / 10, 28 / 25, 27 / 25, 23 / 20]).min ≤ v) ∧
      ((analyzeStats [20240301, 20240302, 20240303, 20240304]
          [11 / 10, 28 / 25, 27 / 25, 23 / 20]).max ∈
          ([11 / 10, 28 / 25, 27 / 25, 23 / 20] : List ℚ) ∧
        ∀ v ∈ ([11 / 10, 28 / 25, 27 / 25, 23 / 20] : List ℚ),
          v ≤ (analyzeStats [20240301, 20240302, 20240303, 20240304]
            [11 / 10, 28 / 25, 27 / 25, 23 / 20]).max) ∧
      (∃ s, ([11 / 10, 28 / 25, 27 / 25, 23 / 20] : List ℚ).Perm s ∧
        List.Sorted (fun a b : ℚ => a ≤ b) s ∧
        (analyzeStats [20240301, 20240302, 20240303, 20240304]
            [11 / 10, 28 / 25, 27 / 25, 23 / 20]).median =
          if s.length % 2 = 1 then s.getD (s.length / 2) 0
          else (s.getD (s.length / 2 - 1) 0 + s.getD (s.length / 2) 0) / 2)) :=
  ⟨by decide, analyze_standard_stats.1 [20240301, 20240302, 20240303, 20240304]
    [11 / 10, 28 / 25, 27 / 25, 23 / 20] (by decide)⟩

/-- C10 (implicit): the assembled frame of one fetch cycle is keyed
exactly by the EUR fetch's dates, so a date present only in the USD or
CHF mapping never produces a row; a EUR date absent from the USD mapping,
or a CHF date absent from the USD mapping, makes the cycle fail at the
ratio lookup instead of being skipped; and when the assembly succeeds on
duplicate-free mappings, the three mappings necessarily have the same key
set. -/
theorem process_keyed_by_eur (eur usd chf : List (Nat × ℚ)) :
    (∀ F, process_currency_data eur usd chf = Except.ok F →
      F.dates = eur.map Prod.fst) ∧
    (∀ d F, process_currency_data eur usd chf = Except.ok F →
      d ∉ eur.map Prod.fst → d ∉ F.dates) ∧
    (∀ d, d ∈ eur.map Prod.fst → d ∉ usd.map Prod.fst →
      ∃ e, process_currency_data eur usd chf = Except.error e) ∧
    (∀ d, d ∈ chf.map Prod.fst → d ∉ usd.map Prod.fst →
      ∃ e, process_currency_data eur usd chf = Except.error e) ∧
    (∀ F, process_currency_data eur usd chf = Except.ok F →
      (eur.map Prod.fst).Nodup → (usd.map Prod.fst).Nodup →
      (chf.map Prod.fst).Nodup →
      (usd.map Prod.fst).Perm (eur.map Prod.fst) ∧
        (chf.map Prod.fst).Perm (eur.map Prod.fst)) := by
  refine ⟨?_, ?_, ?_, ?_, ?_⟩
  · intro F h; exact (process_ok_elim h).2.2.2.2
  · intro d F h hd
    rw [(process_ok_elim h).2.2.2.2]
    exact hd
  · intro d hd hnd
    cases hres : process_currency_data eur usd chf with
    | error e => exact ⟨e, rfl⟩
    | ok F =>
        obtain ⟨⟨L1, h1⟩, _, _, _, _⟩ := process_ok_elim hres
        obtain ⟨r, hr, hrd⟩ := List.mem_map.mp hd
        obtain ⟨w, hw, _⟩ := derive_ok_lookup h1 r hr
        exact (hnd (lookup_mem_keys (hrd ▸ hw))).elim
  · intro d hd hnd
    cases hres : process_currency_data eur usd chf with
    | error e => exact ⟨e, rfl⟩
    | ok F =>
        obtain ⟨_, ⟨L2, h2⟩, _, _, _⟩ := process_ok_elim hres
        obtain ⟨r, hr, hrd⟩ := List.mem_map.mp hd
        obtain ⟨w, hw, _⟩ := derive_ok_lookup h2 r hr
        exact (hnd (lookup_mem_keys (hrd ▸ hw))).elim
  · intro F hok hn1 hn2 hn3
    obtain ⟨⟨L1, h1⟩, ⟨L2, h2⟩, hlen1, hlen2, _⟩ := process_ok_elim hok
    have hsub1 : eur.map Prod.fst ⊆ usd.map Prod.fst := by
      intro d hd
      obtain ⟨r, hr, hrd⟩ := List.mem_map.mp hd
      obtain ⟨w, hw, _⟩ := derive_ok_lookup h1 r hr
      exact lookup_mem_keys (hrd ▸ hw)
    have hsub2 : chf.map Prod.fst ⊆ usd.map Prod.fst := by
      intro d hd
      obtain ⟨r, hr, hrd⟩ := List.mem_map.mp hd
      obtain ⟨w, hw, _⟩ := derive_ok_lookup h2 r hr
      exact lookup_mem_keys (hrd ▸ hw)
    have hlenB : (usd.map Prod.fst).length ≤ (eur.map Prod.fst).length := by
      simp [hlen1.symm]
    have hlenc : (usd.map Prod.fst).length ≤ (chf.map Prod.fst).length := by
      simp [hlen1.symm, hlen2]
    have hp1 : (eur.map Prod.fst).Perm (usd.map Prod.fst) :=
      (List.subperm_of_subset hn1 hsub1).perm_of_length_le hlenB
    have hp2 : (chf.map Prod.fst).Perm (usd.map Prod.fst) :=
      (List.subperm_of_subset hn3 hsub2).perm_of_length_le hlenc
    exact ⟨hp1.symm, hp2.trans hp1.symm⟩

theorem process_keyed_by_eur_witness :
    ((5 : Nat) ∈ ([((5 : Nat), (2 : ℚ))].map Prod.fst)) ∧
    ((5 : Nat) ∉ ([((6 : Nat), (3 : ℚ))].map Prod.fst)) ∧
    ∃ e, process_currency_data [((5 : Nat), (2 : ℚ))] [((6 : Nat), (3 : ℚ))]
        [((6 : Nat), (4 : ℚ))] = Except.error e :=
  ⟨by decide, by decide,
    (process_keyed_by_eur [((5 : Nat), (2 : ℚ))] [((6 : Nat), (3 : ℚ))]
      [((6 : Nat), (4 : ℚ))]).2.2.1 5 (by decide) (by decide)⟩

end CurrencyData
